import Mathlib

/-!
Verification of the DICT-PIX-Simulator request-coordination core.

This file shallowly embeds the Go implementation of the distributed
request-coordination layer:

* `internal/ratelimit/policy.go` — rate-limit policies and the per-status
  cost schedule (`Policy.CostForStatus`, `DefaultPolicies`);
* `internal/ratelimit/bucket.go` — the Redis-backed token bucket
  (`getTokensWithRefill`, `deduct`, `Check`, `Consume`, `Reset`); the two
  Lua scripts are modelled as pure functions on the per-(policy, identifier)
  key pair, with Lua `math.floor` of exact rational arithmetic rendered as
  `Int.fdiv`.  Redis key TTLs are not modelled; every scenario below keeps
  all accesses within the 120 s key lifetime, where expiry cannot fire;
* `internal/models/idempotency.go` — the MongoDB idempotency repository
  (`findByKey`, `upsertClaim`, `claimKey`, `Save`).  The store is modelled
  per key (the Mongo filter `{key: key}` together with the unique index
  confines every operation to at most one document per key), and the
  24-hour document TTL is modelled as read-time expiry (`purge`);
* `internal/middleware/idempotency.go` and the rate-limiting middleware
  (`Manager.RateLimiterWithPolicy`) — per-request orchestration, modelled
  as functions of the store-operation outcomes.  `encoding/json`'s
  `json.Valid` is Go standard library, not repository code, so it is
  abstracted as a boolean parameter `v` on the middleware.

For the concurrency property of `ClaimKey` the two store round-trips of a
claimant (the `FindByKey` read and the `FindOneAndUpdate` upsert) are taken
as the atomic units, and arbitrary interleavings of N claimants are modelled
by a scheduler (`runSched`).  The Mongo upsert is modelled as the atomic
"insert-if-absent, return previous document" primitive the spec assumes of
the document store.
-/

/-- `internal/ratelimit/policy.go`: `Policy` — configuration of one rate
limiting bucket.  `PolicyName` and `Scope` are strings. -/
structure Policy where
  name : String
  scope : String
  refillRate : Int
  bucketSize : Int
  successCost : Int
  notFoundCost : Int
  defaultCost : Int
  ignoreOn5xx : Bool
deriving DecidableEq, Repr

/-- `Policy.CostForStatus`: token cost of an HTTP outcome.  5xx is free when
`IgnoreOn5xx`; 2xx costs `SuccessCost`; 404 costs `NotFoundCost`; everything
else costs `DefaultCost`. -/
def Policy.CostForStatus (p : Policy) (statusCode : Int) : Int :=
  if 500 ≤ statusCode ∧ p.ignoreOn5xx = true then 0
  else if 200 ≤ statusCode ∧ statusCode < 300 then p.successCost
  else if statusCode = 404 then p.notFoundCost
  else p.defaultCost

/-- `DefaultPolicies()[ENTRIES_WRITE]`. -/
def PolicyEntriesWrite : Policy :=
  { name := "ENTRIES_WRITE", scope := "PSP", refillRate := 1200,
    bucketSize := 36000, successCost := 1, notFoundCost := 1,
    defaultCost := 1, ignoreOn5xx := true }

/-- `DefaultPolicies()[ENTRIES_UPDATE]`. -/
def PolicyEntriesUpdate : Policy :=
  { name := "ENTRIES_UPDATE", scope := "PSP", refillRate := 600,
    bucketSize := 600, successCost := 1, notFoundCost := 1,
    defaultCost := 1, ignoreOn5xx := true }

/-- `DefaultPolicies()[ENTRIES_READ_PARTICIPANT_ANTISCAN]` (Category H:
2 tokens/min, bucket 50, 404 costs 3). -/
def PolicyEntriesRead : Policy :=
  { name := "ENTRIES_READ_PARTICIPANT_ANTISCAN", scope := "PSP",
    refillRate := 2, bucketSize := 50, successCost := 1, notFoundCost := 3,
    defaultCost := 1, ignoreOn5xx := true }

/-- The Redis state backing one (policy, identifier) bucket: the values of
the `...:tokens` and `...:last_refill` keys, `none` when the key is absent. -/
structure BucketStore where
  tokens : Option Int
  lastRefill : Option Int
deriving DecidableEq, Repr

/-- `bucket.go` `getTokensWithRefill`: the Lua refill script.  Reads tokens
(defaulting to the bucket size when absent) and the last-refill timestamp
(defaulting to `now` when absent), computes
`refill = floor(((now - lastRefill)/60) * refillRate)`, and only when the
refill is positive writes back the capped token count and `now`. -/
def getTokensWithRefill (p : Policy) (σ : BucketStore) (now : Int) :
    Int × BucketStore :=
  let tokens := σ.tokens.getD p.bucketSize
  let lastRefill := σ.lastRefill.getD now
  let refillAmount := ((now - lastRefill) * p.refillRate).fdiv 60
  if 0 < refillAmount then
    let tokens₂ := min p.bucketSize (tokens + refillAmount)
    (tokens₂, ⟨some tokens₂, some now⟩)
  else
    (tokens, σ)

/-- `bucket.go` `deduct`: the Lua deduction script.  Subtracts `cost` from
the stored tokens (defaulting to the bucket size when absent), flooring at
zero; the `last_refill` key is not touched. -/
def deduct (p : Policy) (σ : BucketStore) (cost : Int) : BucketStore :=
  let tokens := σ.tokens.getD p.bucketSize
  { σ with tokens := some (max 0 (tokens - cost)) }

/-- `bucket.go` `BucketState`: result of a pre-request check. -/
structure BucketState where
  allowed : Bool
  remaining : Int
  reset : Int
  policy : String
deriving DecidableEq, Repr

/-- `bucket.go` `Check`: runs the refill script without deducting;
`allowed` iff the resulting token count is positive, reset hint is the next
minute boundary. -/
def Check (p : Policy) (σ : BucketStore) (now : Int) :
    BucketState × BucketStore :=
  let r := getTokensWithRefill p σ now
  (⟨decide (0 < r.1), r.1, now + 60, p.name⟩, r.2)

/-- `bucket.go` `Consume`: maps the outcome status to a cost; zero cost
(5xx-exempt) is a no-op, otherwise runs the deduction script. -/
def Consume (p : Policy) (σ : BucketStore) (statusCode : Int) : BucketStore :=
  let cost := p.CostForStatus statusCode
  if cost = 0 then σ else deduct p σ cost

/-- `bucket.go` `Reset`: forces the bucket back to full capacity and stamps
the refill baseline. -/
def Reset (p : Policy) (now : Int) : BucketStore :=
  ⟨some p.bucketSize, some now⟩

/-- Policy well-formedness: the capacity, refill rate and all costs of a
policy are nonnegative.  Holds for every policy in `DefaultPolicies`. -/
def PolicyWF (p : Policy) : Bool :=
  decide (0 ≤ p.bucketSize) && decide (0 ≤ p.refillRate) &&
  decide (0 ≤ p.successCost) && decide (0 ≤ p.notFoundCost) &&
  decide (0 ≤ p.defaultCost)

/-- Bucket-state invariant: whenever the tokens key is present its value
lies in `[0, capacity]`. -/
def BucketWF (p : Policy) (σ : BucketStore) : Bool :=
  match σ.tokens with
  | none => true
  | some t => decide (0 ≤ t) && decide (t ≤ p.bucketSize)

example : (getTokensWithRefill PolicyEntriesRead ⟨some 0, some 0⟩ 59).1 = 1 := by decide
example : (getTokensWithRefill PolicyEntriesRead ⟨some 0, some 0⟩ 118).1 = 3 := by decide
example : (Consume PolicyEntriesRead ⟨none, none⟩ 404).tokens = some 47 := by decide

/-- Floors of nonnegative fdiv by 60 are nonnegative. -/
lemma fdiv60_nonneg {a : Int} (ha : 0 ≤ a) : 0 ≤ a.fdiv 60 := by
  rw [Int.fdiv_eq_ediv]
  · exact Int.ediv_nonneg ha (by norm_num)
  · norm_num

/-- Claim C1 (counterexample): the stored token count after an interval is
NOT independent of intermediate `check` calls.  Policy: capacity 50, refill
2/min; bucket starts with 0 tokens, last refill at t = 0.  A single check at
t = 118 s yields `min(50, 0 + floor((118/60)*2)) = 3` tokens, but checking
at t = 59 s and then at t = 118 s yields only 2: the intermediate refill
truncates `floor(1.966) = 1` and resets the baseline, losing the fraction. -/
theorem C1_refill_not_path_independent_cex :
    (getTokensWithRefill PolicyEntriesRead
        ((getTokensWithRefill PolicyEntriesRead ⟨some 0, some 0⟩ 59).2) 118).1 = 2 ∧
    min PolicyEntriesRead.bucketSize
        (0 + ((118 - 0) * PolicyEntriesRead.refillRate).fdiv 60) = 3 ∧
    (getTokensWithRefill PolicyEntriesRead
        ((getTokensWithRefill PolicyEntriesRead ⟨some 0, some 0⟩ 59).2) 118).1 ≠
      min PolicyEntriesRead.bucketSize
        (0 + ((118 - 0) * PolicyEntriesRead.refillRate).fdiv 60) := by
  refine ⟨by decide, by decide, by decide⟩

/-- Claim C1 (amended): for a bucket whose stored state carries both a token
count `t ≤ capacity` and a last-refill timestamp, a SINGLE `check` after
`now - l` seconds yields `min(capacity, t + floor(elapsedMinutes * refillRate))`;
by the counterexample this value is not independent of intermediate checks
(each refilling check truncates the fractional refill and resets the
baseline, so interleaved checks can only lose tokens). -/
theorem C1_single_check_refill (p : Policy) (t l now : Int)
    (hr : 0 ≤ p.refillRate) (ht0 : 0 ≤ t) (htc : t ≤ p.bucketSize)
    (hl : l ≤ now) :
    (getTokensWithRefill p ⟨some t, some l⟩ now).1 =
      min p.bucketSize (t + ((now - l) * p.refillRate).fdiv 60) := by
  unfold getTokensWithRefill
  simp only [Option.getD_some]
  have hR0 : 0 ≤ ((now - l) * p.refillRate).fdiv 60 :=
    fdiv60_nonneg (mul_nonneg (by omega) hr)
  by_cases h : 0 < ((now - l) * p.refillRate).fdiv 60
  · simp [h]
  · have hz : ((now - l) * p.refillRate).fdiv 60 = 0 := by omega
    simp [h, hz]
    omega

/-- Witness for C1's amended theorem: a bucket with 47 tokens, baseline 0,
checked at t = 90 s under the READ policy refills to `min(50, 47 + 3) = 50`. -/
theorem C1_single_check_refill_witness :
    (getTokensWithRefill PolicyEntriesRead ⟨some 47, some 0⟩ 90).1 =
      min PolicyEntriesRead.bucketSize
        (47 + ((90 - 0) * PolicyEntriesRead.refillRate).fdiv 60) :=
  C1_single_check_refill PolicyEntriesRead 47 0 90 (by decide) (by decide)
    (by decide) (by decide)

/-- Claim C2 (code bug, evaluation): fresh bucket, capacity 50, refill
2/min.  `check` allows with 50 remaining and writes nothing; `consume` with
status 404 (cost 3) stores 47 tokens but never writes the `last_refill` key;
the check 30 s later sees 47 (as the claim says); but the check 90 s after
the consume ALSO sees 47, not the claimed 50 — an absent `last_refill`
defaults to `now`, so the elapsed time is always 0 and a traffic-created
bucket never refills. -/
theorem C2_no_refill_on_fresh_bucket :
    (Check PolicyEntriesRead ⟨none, none⟩ 0).1.allowed = true ∧
    (Check PolicyEntriesRead ⟨none, none⟩ 0).1.remaining = 50 ∧
    (Check PolicyEntriesRead ⟨none, none⟩ 0).2 = ⟨none, none⟩ ∧
    Consume PolicyEntriesRead ⟨none, none⟩ 404 = ⟨some 47, none⟩ ∧
    (Check PolicyEntriesRead ⟨some 47, none⟩ 30).1.remaining = 47 ∧
    (Check PolicyEntriesRead ⟨some 47, none⟩ 30).2 = ⟨some 47, none⟩ ∧
    (Check PolicyEntriesRead ⟨some 47, none⟩ 90).1.remaining = 47 ∧
    (Check PolicyEntriesRead ⟨some 47, none⟩ 90).1.remaining ≠ 50 := by
  refine ⟨by decide, by decide, by decide, by decide, by decide, by decide,
    by decide, by decide⟩

/-- Claim C6: for a policy with SuccessCost 1, NotFoundCost 3, DefaultCost 1
and IgnoreOn5xx, `Consume` deducts 1 token on status 200, 3 on 404, nothing
(the stored state is untouched) on 500, and 1 on 400. -/
theorem C6_cost_schedule (p : Policy) (σ : BucketStore) (t : Int)
    (h1 : p.successCost = 1) (h3 : p.notFoundCost = 3) (hd : p.defaultCost = 1)
    (h5 : p.ignoreOn5xx = true) (ht : σ.tokens = some t) (h3t : 3 ≤ t) :
    (Consume p σ 200).tokens = some (t - 1) ∧
    (Consume p σ 404).tokens = some (t - 3) ∧
    Consume p σ 500 = σ ∧
    (Consume p σ 400).tokens = some (t - 1) := by
  unfold Consume Policy.CostForStatus deduct
  refine ⟨?_, ?_, ?_, ?_⟩ <;>
    simp [h1, h3, hd, h5, ht] <;> omega

/-- Witness for C6: the READ/antiscan policy on a bucket holding 47 tokens. -/
theorem C6_cost_schedule_witness :
    (Consume PolicyEntriesRead ⟨some 47, none⟩ 200).tokens = some (47 - 1) ∧
    (Consume PolicyEntriesRead ⟨some 47, none⟩ 404).tokens = some (47 - 3) ∧
    Consume PolicyEntriesRead ⟨some 47, none⟩ 500 = ⟨some 47, none⟩ ∧
    (Consume PolicyEntriesRead ⟨some 47, none⟩ 400).tokens = some (47 - 1) :=
  C6_cost_schedule PolicyEntriesRead ⟨some 47, none⟩ 47 (by decide) (by decide)
    (by decide) (by decide) (by decide) (by decide)

/-- A well-formed policy assigns a nonnegative cost to every status. -/
lemma costForStatus_nonneg (p : Policy) (s : Int) (hp : PolicyWF p = true) :
    0 ≤ p.CostForStatus s := by
  simp only [PolicyWF, Bool.and_eq_true, decide_eq_true_eq] at hp
  unfold Policy.CostForStatus
  split
  · omega
  · split
    · omega
    · split <;> omega

/-- Claim C7: under any well-formed policy, the stored token count stays in
`[0, capacity]`: `Check`'s refill never exceeds capacity, `Consume` never
goes below zero (for ANY cost magnitude the deduction script floors at 0),
and `Reset` restores exactly the capacity.  The invariant `BucketWF` is
preserved by every check/consume/reset. -/
theorem C7_token_bounds (p : Policy) (σ : BucketStore) (now status : Int)
    (hp : PolicyWF p = true) (hσ : BucketWF p σ = true) :
    BucketWF p (Check p σ now).2 = true ∧
    BucketWF p (Consume p σ status) = true ∧
    BucketWF p (Reset p now) = true ∧
    ∀ cost : Int, ∃ x, (deduct p σ cost).tokens = some x ∧ 0 ≤ x := by
  simp only [PolicyWF, Bool.and_eq_true, decide_eq_true_eq] at hp
  obtain ⟨⟨⟨⟨hcap, hrate⟩, hsc⟩, hnf⟩, hdc⟩ := hp
  have hwf : ∀ u, σ.tokens = some u → 0 ≤ u ∧ u ≤ p.bucketSize := by
    intro u hu
    simp only [BucketWF, hu, Bool.and_eq_true, decide_eq_true_eq] at hσ
    exact hσ
  have htok : 0 ≤ σ.tokens.getD p.bucketSize ∧
      σ.tokens.getD p.bucketSize ≤ p.bucketSize := by
    cases h : σ.tokens with
    | none => simp [hcap]
    | some u => simpa using hwf u h
  refine ⟨?_, ?_, ?_, ?_⟩
  · unfold Check getTokensWithRefill
    dsimp only
    split
    · rename_i hpos
      simp only [BucketWF, Bool.and_eq_true, decide_eq_true_eq]
      omega
    · simpa using hσ
  · unfold Consume
    dsimp only
    split
    · exact hσ
    · have hcost := costForStatus_nonneg p status (by
        simp only [PolicyWF, Bool.and_eq_true, decide_eq_true_eq]
        exact ⟨⟨⟨⟨hcap, hrate⟩, hsc⟩, hnf⟩, hdc⟩)
      unfold deduct
      simp only [BucketWF, Bool.and_eq_true, decide_eq_true_eq]
      omega
  · simp only [Reset, BucketWF, Bool.and_eq_true, decide_eq_true_eq]
    omega
  · intro cost
    refine ⟨max 0 (σ.tokens.getD p.bucketSize - cost), rfl, ?_⟩
    omega

/-- Witness for C7: the READ policy on a bucket storing 2 tokens at a
baseline of 0, checked/consumed at t = 90 with status 404. -/
theorem C7_token_bounds_witness :
    BucketWF PolicyEntriesRead (Check PolicyEntriesRead ⟨some 2, some 0⟩ 90).2 = true ∧
    BucketWF PolicyEntriesRead (Consume PolicyEntriesRead ⟨some 2, some 0⟩ 404) = true ∧
    BucketWF PolicyEntriesRead (Reset PolicyEntriesRead 90) = true ∧
    ∀ cost : Int, ∃ x,
      (deduct PolicyEntriesRead ⟨some 2, some 0⟩ cost).tokens = some x ∧ 0 ≤ x :=
  C7_token_bounds PolicyEntriesRead ⟨some 2, some 0⟩ 90 404 (by decide) (by decide)

/-- `internal/models/idempotency.go`: `IdempotencyRecord` — a stored
idempotent request response.  `createdAt` is seconds since epoch. -/
structure IdempotencyRecord where
  key : String
  response : String
  statusCode : Int
  createdAt : Int
deriving DecidableEq, Repr

/-- The 24-hour document TTL installed by `EnsureIndexes`
(`SetExpireAfterSeconds(86400)` on `createdAt`). -/
def ttlSeconds : Int := 86400

/-- The Mongo TTL monitor: a document is visible only while less than
`ttlSeconds` have elapsed since its `createdAt`. -/
def purge (σ : Option IdempotencyRecord) (now : Int) :
    Option IdempotencyRecord :=
  match σ with
  | some r => if now < r.createdAt + ttlSeconds then some r else none
  | none => none

/-- The "processing" placeholder inserted by `ClaimKey`-s upsert branch:
sentinel status 0, empty body (the `Response` field keeps its zero value). -/
def sentinel (k : String) (now : Int) : IdempotencyRecord :=
  ⟨k, "", 0, now⟩

/-- `FindByKey`: read the (unexpired) document for the key. -/
def findByKey (σ : Option IdempotencyRecord) (now : Int) :
    Option IdempotencyRecord :=
  purge σ now

/-- The `FindOneAndUpdate` upsert of `ClaimKey`: atomically insert the
processing sentinel if no document exists and report the before-image.
Returns `((claimed, existingRecord), newStore)`. -/
def upsertClaim (k : String) (now : Int) (σ : Option IdempotencyRecord) :
    (Bool × Option IdempotencyRecord) × Option IdempotencyRecord :=
  match purge σ now with
  | some r => ((false, some r), σ)
  | none => ((true, none), some (sentinel k now))

/-- `ClaimKey`: first a plain `FindByKey` (early return when a record
exists), then the atomic claim upsert. -/
def claimKey (k : String) (σ : Option IdempotencyRecord) (now : Int) :
    (Bool × Option IdempotencyRecord) × Option IdempotencyRecord :=
  match findByKey σ now with
  | some r => ((false, some r), σ)
  | none => upsertClaim k now σ

/-- `Save`: upsert (`$set`) the full record — final body, status and a fresh
`createdAt` — overwriting any processing placeholder. -/
def Save (k body : String) (statusCode : Int) (σ : Option IdempotencyRecord)
    (now : Int) : Option IdempotencyRecord :=
  some ⟨k, body, statusCode, now⟩

/-- An HTTP response as captured by the middleware-s `responseRecorder`:
final status code and serialized body. -/
structure Response where
  statusCode : Int
  body : String
deriving DecidableEq, Repr

/-- Outcome of one pass through `Manager.Idempotency`: the response written
to the client, the store afterwards, whether the downstream handler ran, and
whether `Save` was called. -/
structure IdemOutcome where
  response : Response
  store : Option IdempotencyRecord
  handlerInvoked : Bool
  saveCalled : Bool
deriving DecidableEq, Repr

/-- `middleware/idempotency.go`, from the `ClaimKey` call on: on a store
error, proceed (fail open); if the key was not claimed and a record exists,
replay its cached status/body verbatim without invoking the handler;
otherwise run the handler and `Save` the captured response — but only when
its body is valid JSON (`json.Valid`, abstracted as `v`). -/
def idempotencyHandleClaim (v : String → Bool) (k : String) (now : Int)
    (claimRes :
      Except Unit ((Bool × Option IdempotencyRecord) × Option IdempotencyRecord))
    (σ : Option IdempotencyRecord) (h : Response) : IdemOutcome :=
  match claimRes with
  | .error _ => ⟨h, σ, true, false⟩
  | .ok ((claimed, rec), σ₁) =>
    match claimed, rec with
    | false, some r => ⟨⟨r.statusCode, r.response⟩, σ₁, false, false⟩
    | _, _ =>
      if v h.body then ⟨h, Save k h.body h.statusCode σ₁ now, true, true⟩
      else ⟨h, σ₁, true, false⟩

/-- `Manager.Idempotency` for one request: skip entirely when the
`X-Idempotency-Key` header is absent, otherwise claim and dispatch. -/
def runIdempotency (v : String → Bool) (k : String)
    (σ : Option IdempotencyRecord) (now : Int) (h : Response) : IdemOutcome :=
  if k = "" then ⟨h, σ, true, false⟩
  else idempotencyHandleClaim v k now (.ok (claimKey k σ now)) σ h

/-- A sequence of `claim(key)` calls at the given times, threading the
store; returns the call results and the final store. -/
def runClaims (k : String) : List Int → Option IdempotencyRecord →
    List (Bool × Option IdempotencyRecord) × Option IdempotencyRecord
  | [], σ => ([], σ)
  | t :: ts, σ =>
    let r := claimKey k σ t
    let rest := runClaims k ts r.2
    (r.1 :: rest.1, rest.2)

/-- A sequence of requests through the idempotency middleware, each with its
arrival time and downstream-handler response; returns for each request the
response sent, whether the handler ran and whether `Save` ran, plus the
final store. -/
def runRequests (v : String → Bool) (k : String) :
    List (Int × Response) → Option IdempotencyRecord →
    List (Response × Bool × Bool) × Option IdempotencyRecord
  | [], σ => ([], σ)
  | (t, h) :: rest, σ =>
    let o := runIdempotency v k σ t h
    let r := runRequests v k rest o.store
    ((o.response, o.handlerInvoked, o.saveCalled) :: r.1, r.2)

/-- A claim on a saved (unexpired) record replays it and leaves the store
untouched. -/
lemma claimKey_saved (k body : String) (status t u : Int)
    (σ : Option IdempotencyRecord) (hu : u < t + ttlSeconds) :
    claimKey k (Save k body status σ t) u =
      ((false, some ⟨k, body, status, t⟩), Save k body status σ t) := by
  unfold claimKey findByKey purge Save
  simp [hu]

/-- Claim C4: after `save(key, body, status)`, every subsequent `claim(key)`
issued before the record's TTL elapses returns `claimed = false` together
with a record whose cached body and status exactly equal what was saved, and
the store is left unchanged. -/
theorem C4_replay_fidelity (k body : String) (status t : Int)
    (σ : Option IdempotencyRecord) (ts : List Int)
    (h : ∀ u ∈ ts, u < t + ttlSeconds) :
    (runClaims k ts (Save k body status σ t)).1 =
      List.replicate ts.length (false, some ⟨k, body, status, t⟩) ∧
    (runClaims k ts (Save k body status σ t)).2 = Save k body status σ t := by
  induction ts with
  | nil => exact ⟨rfl, rfl⟩
  | cons u ts ih =>
    have hu : u < t + ttlSeconds := h u (List.mem_cons_self u ts)
    have hrest := ih (fun x hx => h x (List.mem_cons_of_mem u hx))
    unfold runClaims
    rw [claimKey_saved k body status t u σ hu]
    exact ⟨by simp [hrest.1, List.replicate_succ], hrest.2⟩

/-- Witness for C4: after `save("abc", "<body>", 201)` at t = 0, claims at
t = 10 and t = 100 both replay body `"<body>"` with status 201. -/
theorem C4_replay_fidelity_witness :
    (runClaims "abc" [10, 100] (Save "abc" "<body>" 201 none 0)).1 =
      List.replicate 2 (false, some ⟨"abc", "<body>", 201, 0⟩) ∧
    (runClaims "abc" [10, 100] (Save "abc" "<body>" 201 none 0)).2 =
      Save "abc" "<body>" 201 none 0 :=
  C4_replay_fidelity "abc" "<body>" 201 0 none [10, 100] (by decide)

/-- Claim C5 (counterexample): a request whose `claim` finds a prior record
still in the processing sub-state (the sentinel: status 0, empty body) does
NOT proceed to the downstream handler — `ClaimKey`-s `FindByKey` early
return yields `claimed = false` with the sentinel, and the middleware
replays it (status 0, empty body) instead of dispatching. -/
theorem C5_processing_proceeds_cex :
    (runIdempotency (fun _ => true) "abc" (some (sentinel "abc" 0)) 5
        ⟨201, "ok"⟩).handlerInvoked = false ∧
    (runIdempotency (fun _ => true) "abc" (some (sentinel "abc" 0)) 5
        ⟨201, "ok"⟩).response = ⟨0, ""⟩ := by
  refine ⟨by decide, by decide⟩

/-- When `claim(key)` finds any unexpired prior record, the middleware
replays it verbatim: no dispatch, no save, store untouched. -/
lemma runIdempotency_replay (v : String → Bool) (k : String)
    (σ : Option IdempotencyRecord) (r : IdempotencyRecord) (now : Int)
    (h : Response) (hk : k ≠ "") (hr : purge σ now = some r) :
    runIdempotency v k σ now h =
      ⟨⟨r.statusCode, r.response⟩, σ, false, false⟩ := by
  unfold runIdempotency claimKey findByKey idempotencyHandleClaim
  rw [hr]
  simp [hk]

/-- Claim C5 (amended): when `claim(key)` finds a prior record that is still
in the processing sub-state (sentinel status 0), the middleware does NOT
invoke the downstream handler; it replays the sentinel record as the
response — status 0 with the (empty) cached body — and calls no `save`. -/
theorem C5_processing_replays_sentinel (v : String → Bool) (k : String)
    (σ : Option IdempotencyRecord) (r : IdempotencyRecord) (now : Int)
    (h : Response) (hk : k ≠ "") (hr : purge σ now = some r)
    (hproc : r.statusCode = 0) :
    runIdempotency v k σ now h = ⟨⟨0, r.response⟩, σ, false, false⟩ := by
  rw [runIdempotency_replay v k σ r now h hk hr, hproc]

/-- Witness for C5's amended theorem: a processing sentinel for `"abc"`
created at t = 0, observed at t = 5. -/
theorem C5_processing_replays_sentinel_witness :
    runIdempotency (fun _ => false) "abc" (some (sentinel "abc" 0)) 5
        ⟨201, "ok"⟩ = ⟨⟨0, ""⟩, some (sentinel "abc" 0), false, false⟩ :=
  C5_processing_replays_sentinel (fun _ => false) "abc"
    (some (sentinel "abc" 0)) (sentinel "abc" 0) 5 ⟨201, "ok"⟩
    (by decide) (by decide) (by decide)

/-- The `X-RateLimit-*` headers set by `setRateLimitHeaders`: limit
(capacity), remaining, reset timestamp, policy name. -/
structure RLHeaders where
  limit : Int
  remaining : Int
  reset : Int
  policy : String
deriving DecidableEq, Repr

/-- Outcome of one pass through `Manager.RateLimiterWithPolicy`: the status
written to the client, the machine-readable error code if any, the rate-limit
headers if set, whether the downstream handler ran, and whether `Consume`
was called afterwards. -/
structure RLOutcome where
  status : Int
  errorCode : Option String
  headers : Option RLHeaders
  handlerInvoked : Bool
  consumeCalled : Bool
deriving DecidableEq, Repr

/-- `middleware/rate_limiter.go` `Manager.RateLimiterWithPolicy` for one
request: skip when disabled or when no limiter is wired; fail OPEN on a
`Check` error; otherwise set the rate-limit headers, short-circuit with 429
and the `TOO_MANY_REQUESTS` code when not allowed (no dispatch, no consume),
and otherwise dispatch and consume with the captured status. -/
def runRateLimiterWithPolicy (p : Policy) (enabled limiterPresent : Bool)
    (checkRes : Except Unit BucketState) (handlerStatus : Int) : RLOutcome :=
  if enabled = false then ⟨handlerStatus, none, none, true, false⟩
  else if limiterPresent = false then ⟨handlerStatus, none, none, true, false⟩
  else
    match checkRes with
    | .error _ => ⟨handlerStatus, none, none, true, false⟩
    | .ok st =>
      if st.allowed = false then
        ⟨429, some "TOO_MANY_REQUESTS",
          some ⟨p.bucketSize, st.remaining, st.reset, st.policy⟩, false, false⟩
      else
        ⟨handlerStatus, none,
          some ⟨p.bucketSize, st.remaining, st.reset, st.policy⟩, true, true⟩

/-- Claim C8: if the shared store is unreachable (error/timeout) during the
rate-limit `check` or during the idempotency `claim`, both middlewares fail
open: the downstream handler is invoked, its response reaches the client
unchanged, and the store error is never surfaced (no error status, no error
code, no replay). -/
theorem C8_fail_open (p : Policy) (handlerStatus : Int) (v : String → Bool)
    (k : String) (σ : Option IdempotencyRecord) (now : Int) (h : Response) :
    runRateLimiterWithPolicy p true true (Except.error ()) handlerStatus =
      ⟨handlerStatus, none, none, true, false⟩ ∧
    idempotencyHandleClaim v k now (Except.error ()) σ h = ⟨h, σ, true, false⟩ :=
  ⟨rfl, rfl⟩

/-- The refill script never reports a negative token count when the stored
state is well-formed and the capacity is nonnegative. -/
lemma getTokensWithRefill_nonneg (p : Policy) (σ : BucketStore) (now : Int)
    (hcap : 0 ≤ p.bucketSize) (hσ : BucketWF p σ = true) :
    0 ≤ (getTokensWithRefill p σ now).1 := by
  have htok : 0 ≤ σ.tokens.getD p.bucketSize := by
    cases h : σ.tokens with
    | none => simpa using hcap
    | some u =>
      simp only [BucketWF, h, Bool.and_eq_true, decide_eq_true_eq] at hσ
      simpa using hσ.1
  unfold getTokensWithRefill
  dsimp only
  split
  · rename_i hpos
    omega
  · exact htok

/-- Claim C9: when `check` succeeds and reports `allowed = false`, the
middleware short-circuits with status 429 and the `TOO_MANY_REQUESTS` code,
the `X-RateLimit-Remaining` header equals 0, the reset hint is attached, the
downstream handler is never invoked, and `consume` is not called. -/
theorem C9_reject_short_circuit (p : Policy) (σ : BucketStore)
    (now handlerStatus : Int) (hp : PolicyWF p = true)
    (hσ : BucketWF p σ = true)
    (hall : (Check p σ now).1.allowed = false) :
    runRateLimiterWithPolicy p true true (Except.ok (Check p σ now).1)
        handlerStatus =
      ⟨429, some "TOO_MANY_REQUESTS",
        some ⟨p.bucketSize, 0, now + 60, p.name⟩, false, false⟩ := by
  have hcap : 0 ≤ p.bucketSize := by
    simp only [PolicyWF, Bool.and_eq_true, decide_eq_true_eq] at hp
    exact hp.1.1.1.1
  have h0 : 0 ≤ (getTokensWithRefill p σ now).1 :=
    getTokensWithRefill_nonneg p σ now hcap hσ
  have hle : (getTokensWithRefill p σ now).1 ≤ 0 := by
    have : (Check p σ now).1.allowed = decide (0 < (getTokensWithRefill p σ now).1) := rfl
    rw [this] at hall
    simpa using hall
  have hz : (getTokensWithRefill p σ now).1 = 0 := le_antisymm hle h0
  have hrem : (Check p σ now).1.remaining = 0 := hz
  have hreset : (Check p σ now).1.reset = now + 60 := rfl
  have hpol : (Check p σ now).1.policy = p.name := rfl
  unfold runRateLimiterWithPolicy
  simp [hall, hrem, hreset, hpol]

/-- Witness for C9: the READ policy with an empty bucket (0 tokens stored,
baseline now) is rejected with remaining 0. -/
theorem C9_reject_short_circuit_witness :
    runRateLimiterWithPolicy PolicyEntriesRead true true
        (Except.ok (Check PolicyEntriesRead ⟨some 0, some 0⟩ 0).1) 200 =
      ⟨429, some "TOO_MANY_REQUESTS",
        some ⟨PolicyEntriesRead.bucketSize, 0, 0 + 60,
          PolicyEntriesRead.name⟩, false, false⟩ :=
  C9_reject_short_circuit PolicyEntriesRead ⟨some 0, some 0⟩ 0 200
    (by decide) (by decide) (by decide)

/-- While the store holds the processing sentinel, every request with the
key (before the TTL elapses) is answered by replaying the sentinel — status
0, empty body — without invoking the handler or calling `Save`, and the
store is unchanged. -/
lemma runRequests_sentinel (v : String → Bool) (k : String) (t₀ : Int)
    (rest : List (Int × Response)) (hk : k ≠ "")
    (hrest : ∀ x ∈ rest, x.1 < t₀ + ttlSeconds) :
    runRequests v k rest (some (sentinel k t₀)) =
      (List.replicate rest.length (⟨0, ""⟩, false, false),
        some (sentinel k t₀)) := by
  induction rest with
  | nil => rfl
  | cons x rest ih =>
    obtain ⟨u, h⟩ := x
    have hu : u < t₀ + ttlSeconds := hrest (u, h) (List.mem_cons_self _ _)
    have hstep : runIdempotency v k (some (sentinel k t₀)) u h =
        ⟨⟨0, ""⟩, some (sentinel k t₀), false, false⟩ :=
      runIdempotency_replay v k (some (sentinel k t₀))
        (sentinel k t₀) u h hk (by simp [purge, sentinel, hu])
    unfold runRequests
    rw [hstep]
    simp [ih (fun y hy => hrest y (List.mem_cons_of_mem _ hy)),
      List.replicate_succ]

/-- Claim C10: when the idempotency key is present and the handler-s body is
not valid JSON, the middleware never calls `save`: the first request runs
the handler and leaves the key-s record as the processing sentinel (status
0, empty body), and every later request with the same key before the
24-hour TTL elapses is answered with the sentinel-s status 0 and empty body
instead of the handler-s actual response, without invoking the handler. -/
theorem C10_invalid_json_poisons_key (v : String → Bool) (k : String)
    (t₀ : Int) (h₀ : Response) (rest : List (Int × Response))
    (hk : k ≠ "") (hv : v h₀.body = false)
    (hrest : ∀ x ∈ rest, x.1 < t₀ + ttlSeconds) :
    (runRequests v k ((t₀, h₀) :: rest) none).1 =
      (h₀, true, false) ::
        List.replicate rest.length (⟨0, ""⟩, false, false) ∧
    (runRequests v k ((t₀, h₀) :: rest) none).2 = some (sentinel k t₀) := by
  have hclaim : claimKey k none t₀ = ((true, none), some (sentinel k t₀)) := rfl
  have hfirst : runIdempotency v k none t₀ h₀ =
      ⟨h₀, some (sentinel k t₀), true, false⟩ := by
    unfold runIdempotency
    rw [if_neg hk, hclaim]
    unfold idempotencyHandleClaim
    simp [hv]
  have hrepl := runRequests_sentinel v k t₀ rest hk hrest
  constructor
  · show (runRequests v k ((t₀, h₀) :: rest) none).1 = _
    unfold runRequests
    rw [hfirst]
    simp [hrepl]
  · show (runRequests v k ((t₀, h₀) :: rest) none).2 = _
    unfold runRequests
    rw [hfirst]
    simp [hrepl]

/-- Witness for C10: key `"abc"`, a 201 response with a non-JSON body (`v`
constantly false models `json.Valid` rejecting it), two later requests at
t = 10 and t = 1000: both replay status 0 with empty body. -/
theorem C10_invalid_json_poisons_key_witness :
    (runRequests (fun _ => false) "abc"
        [(0, ⟨201, "not json"⟩), (10, ⟨200, "x"⟩), (1000, ⟨200, "y"⟩)]
        none).1 =
      (⟨201, "not json"⟩, true, false) ::
        List.replicate 2 (⟨0, ""⟩, false, false) ∧
    (runRequests (fun _ => false) "abc"
        [(0, ⟨201, "not json"⟩), (10, ⟨200, "x"⟩), (1000, ⟨200, "y"⟩)]
        none).2 = some (sentinel "abc" 0) :=
  C10_invalid_json_poisons_key (fun _ => false) "abc" 0 ⟨201, "not json"⟩
    [(10, ⟨200, "x"⟩), (1000, ⟨200, "y"⟩)] (by decide) rfl (by decide)

/-- Program counter of one concurrent `ClaimKey` caller: before its
`FindByKey` read; between the read (which found nothing) and the upsert; or
finished with its `(claimed, record)` result. -/
inductive ClaimPhase where
  | start : ClaimPhase
  | midway : ClaimPhase
  | done : Bool → Option IdempotencyRecord → ClaimPhase
deriving DecidableEq, Repr

/-- One atomic store round-trip of a `ClaimKey` caller: `start` performs the
`FindByKey` read (early-returning when a record exists), `midway` performs
the atomic claim upsert; a finished caller does nothing. -/
def claimStep (k : String) (now : Int) (σ : Option IdempotencyRecord) :
    ClaimPhase → Option IdempotencyRecord × ClaimPhase
  | .start =>
    match findByKey σ now with
    | some r => (σ, .done false (some r))
    | none => (σ, .midway)
  | .midway =>
    let r := upsertClaim k now σ
    (r.2, .done r.1.1 r.1.2)
  | .done c rec => (σ, .done c rec)

/-- Run the next atomic step of caller `i` (no-op on an out-of-range id). -/
def stepAt (k : String) (now : Int)
    (s : Option IdempotencyRecord × List ClaimPhase) (i : Nat) :
    Option IdempotencyRecord × List ClaimPhase :=
  match s.2[i]? with
  | none => s
  | some ph =>
    let r := claimStep k now s.1 ph
    (r.1, s.2.set i r.2)

/-- Execute an arbitrary interleaving (a schedule of caller ids) of the
concurrent claimants against the shared store. -/
def runSched (k : String) (now : Int) (sched : List Nat)
    (s : Option IdempotencyRecord × List ClaimPhase) :
    Option IdempotencyRecord × List ClaimPhase :=
  sched.foldl (stepAt k now) s

/-- `n` concurrent `claim(key)` callers with no prior record for the key,
executed under the given schedule. -/
def claimRun (k : String) (now : Int) (n : Nat) (sched : List Nat) :
    Option IdempotencyRecord × List ClaimPhase :=
  runSched k now sched (none, List.replicate n ClaimPhase.start)

/-- Whether a caller has finished. -/
def isDone : ClaimPhase → Bool
  | .done _ _ => true
  | _ => false

/-- A caller that is not the winner: either unfinished, or finished with
`claimed = false` and a non-nil record. -/
def loserOk : ClaimPhase → Prop
  | .done c rec => c = false ∧ rec.isSome = true
  | _ => True

/-- System invariant of the claim race: while the store is empty nobody has
finished; once it holds a record, that record is the processing sentinel,
exactly one caller has finished with `claimed = true` (and no record), and
every other caller is a `loserOk`. -/
def claimInv (k : String) (now : Int) :
    Option IdempotencyRecord × List ClaimPhase → Prop
  | (none, ps) => ∀ p ∈ ps, isDone p = false
  | (some r, ps) => r = sentinel k now ∧
      ∃ i, ∃ hi : i < ps.length, ps[i] = ClaimPhase.done true none ∧
        ∀ j, ∀ hj : j < ps.length, j ≠ i → loserOk ps[j]

lemma loserOk_of_not_done {p : ClaimPhase} (h : isDone p = false) :
    loserOk p := by
  cases p <;> simp [isDone, loserOk] at h ⊢

lemma purge_sentinel (k : String) (now : Int) :
    purge (some (sentinel k now)) now = some (sentinel k now) := by
  unfold purge sentinel ttlSeconds
  dsimp only
  rw [if_pos (by omega)]

/-- The claim-race invariant is preserved by every atomic step of every
caller. -/
lemma stepAt_inv (k : String) (now : Int)
    (s : Option IdempotencyRecord × List ClaimPhase) (i : Nat)
    (h : claimInv k now s) : claimInv k now (stepAt k now s i) := by
  obtain ⟨σ, ps⟩ := s
  unfold stepAt
  dsimp only
  cases hp : ps[i]? with
  | none => exact h
  | some ph =>
    obtain ⟨hi, hpi⟩ := List.getElem?_eq_some.mp hp
    have hmem : ph ∈ ps := hpi ▸ List.getElem_mem hi
    cases σ with
    | none =>
      have hnd : ∀ p ∈ ps, isDone p = false := h
      cases ph with
      | start =>
        show claimInv k now (none, ps.set i ClaimPhase.midway)
        intro p hpm
        rcases List.mem_or_eq_of_mem_set hpm with hm | he
        · exact hnd p hm
        · rw [he]; rfl
      | midway =>
        show claimInv k now
          (some (sentinel k now), ps.set i (ClaimPhase.done true none))
        refine ⟨rfl, i, by simpa using hi, ?_, ?_⟩
        · exact List.getElem_set_self (by simpa using hi)
        · intro j hj hne
          rw [List.getElem_set_ne (fun he => hne he.symm) hj]
          exact loserOk_of_not_done
            (hnd _ (List.getElem_mem (by simpa using hj)))
      | done c rec =>
        have := hnd _ hmem
        simp [isDone] at this
    | some r =>
      obtain ⟨hr, i₀, hi₀, hwin, hlose⟩ := h
      subst hr
      cases ph with
      | start =>
        have hcs : claimStep k now (some (sentinel k now)) ClaimPhase.start =
            (some (sentinel k now),
              ClaimPhase.done false (some (sentinel k now))) := by
          unfold claimStep findByKey
          rw [purge_sentinel]
        dsimp only
        rw [hcs]
        have hne₀ : i ≠ i₀ := by
          intro he
          subst he
          exact absurd (hwin.symm.trans hpi) (by simp)
        refine ⟨rfl, i₀, by simpa using hi₀, ?_, ?_⟩
        · rw [List.getElem_set_ne hne₀ (by simpa using hi₀)]
          exact hwin
        · intro j hj hne
          by_cases hji : j = i
          · subst hji
            rw [List.getElem_set_self hj]
            exact ⟨rfl, rfl⟩
          · rw [List.getElem_set_ne (fun he => hji he.symm) hj]
            exact hlose j (by simpa using hj) hne
      | midway =>
        have hcs : claimStep k now (some (sentinel k now)) ClaimPhase.midway =
            (some (sentinel k now),
              ClaimPhase.done false (some (sentinel k now))) := by
          unfold claimStep upsertClaim
          rw [purge_sentinel]
        dsimp only
        rw [hcs]
        have hne₀ : i ≠ i₀ := by
          intro he
          subst he
          exact absurd (hwin.symm.trans hpi) (by simp)
        refine ⟨rfl, i₀, by simpa using hi₀, ?_, ?_⟩
        · rw [List.getElem_set_ne hne₀ (by simpa using hi₀)]
          exact hwin
        · intro j hj hne
          by_cases hji : j = i
          · subst hji
            rw [List.getElem_set_self hj]
            exact ⟨rfl, rfl⟩
          · rw [List.getElem_set_ne (fun he => hji he.symm) hj]
            exact hlose j (by simpa using hj) hne
      | done c rec =>
        show claimInv k now
          (some (sentinel k now), ps.set i (ClaimPhase.done c rec))
        refine ⟨rfl, i₀, by simpa using hi₀, ?_, ?_⟩
        · by_cases hii : i = i₀
          · subst hii
            rw [List.getElem_set_self (by simpa using hi₀)]
            rw [hpi] at hwin
            exact hwin
          · rw [List.getElem_set_ne hii (by simpa using hi₀)]
            exact hwin
        · intro j hj hne
          by_cases hji : j = i
          · subst hji
            rw [List.getElem_set_self hj]
            have hlj := hlose j (by simpa using hj) hne
            rw [hpi] at hlj
            exact hlj
          · rw [List.getElem_set_ne (fun he => hji he.symm) hj]
            exact hlose j (by simpa using hj) hne

/-- The claim-race invariant is preserved by any schedule. -/
lemma runSched_inv (k : String) (now : Int) (sched : List Nat) :
    ∀ s, claimInv k now s → claimInv k now (runSched k now sched s) := by
  induction sched with
  | nil => intro s h; exact h
  | cons i sched ih =>
    intro s h
    exact ih (stepAt k now s i) (stepAt_inv k now s i h)

/-- A step never changes the number of callers. -/
lemma stepAt_length (k : String) (now : Int)
    (s : Option IdempotencyRecord × List ClaimPhase) (i : Nat) :
    (stepAt k now s i).2.length = s.2.length := by
  unfold stepAt
  dsimp only
  cases hp : s.2[i]? with
  | none => rfl
  | some ph => simp

/-- A schedule never changes the number of callers. -/
lemma runSched_length (k : String) (now : Int) (sched : List Nat) :
    ∀ s, (runSched k now sched s).2.length = s.2.length := by
  induction sched with
  | nil => intro s; rfl
  | cons i sched ih =>
    intro s
    calc (runSched k now sched (stepAt k now s i)).2.length
        = (stepAt k now s i).2.length := ih (stepAt k now s i)
      _ = s.2.length := stepAt_length k now s i

/-- Claim C3: for N > 0 concurrent `claim(key)` callers with no prior record,
under EVERY interleaving in which all callers finish, exactly one caller
returns `claimed = true`, every other caller returns `claimed = false`
together with a non-nil record, and the store ends holding the single
processing-sentinel record — no second independent record is ever created. -/
theorem C3_at_most_one_claim (k : String) (now : Int) (n : Nat)
    (sched : List Nat) (hn : 0 < n)
    (hdone : ∀ p ∈ (claimRun k now n sched).2, isDone p = true) :
    (∃ i, ∃ hi : i < (claimRun k now n sched).2.length,
        (claimRun k now n sched).2[i] = ClaimPhase.done true none ∧
        ∀ j, ∀ hj : j < (claimRun k now n sched).2.length, j ≠ i →
          ∃ r, (claimRun k now n sched).2[j] =
            ClaimPhase.done false (some r)) ∧
    (claimRun k now n sched).1 = some (sentinel k now) := by
  have hinv0 : claimInv k now (none, List.replicate n ClaimPhase.start) := by
    intro p hp
    rw [List.eq_of_mem_replicate hp]
    rfl
  have hinv : claimInv k now (claimRun k now n sched) :=
    runSched_inv k now sched _ hinv0
  have hlen : (claimRun k now n sched).2.length = n := by
    have := runSched_length k now sched (none, List.replicate n ClaimPhase.start)
    simpa [claimRun] using this
  rcases hcr : claimRun k now n sched with ⟨σf, psf⟩
  rw [hcr] at hinv hlen
  simp only at hinv hlen
  have hdone₂ : ∀ p ∈ psf, isDone p = true := by
    intro p hp
    have := hdone p (by rw [hcr]; exact hp)
    exact this
  cases σf with
  | none =>
    have h0 : 0 < psf.length := by omega
    have hd := hdone₂ psf[0] (List.getElem_mem h0)
    have hnd := hinv psf[0] (List.getElem_mem h0)
    rw [hd] at hnd
    exact absurd hnd (by simp)
  | some r =>
    obtain ⟨hr, i₀, hi₀, hwin, hlose⟩ := hinv
    subst hr
    refine ⟨⟨i₀, hi₀, hwin, ?_⟩, rfl⟩
    intro j hj hne
    have hj₂ : j < psf.length := hj
    have hlj := hlose j hj₂ hne
    have hdj := hdone₂ psf[j] (List.getElem_mem hj₂)
    cases hph : psf[j] with
    | start => rw [hph] at hdj; exact absurd hdj (by simp [isDone])
    | midway => rw [hph] at hdj; exact absurd hdj (by simp [isDone])
    | done c rec =>
      rw [hph] at hlj
      obtain ⟨hc, hrec⟩ := hlj
      obtain ⟨r₂, hr₂⟩ := Option.isSome_iff_exists.mp hrec
      exact ⟨r₂, by rw [hc, hr₂]⟩

/-- Witness for C3: three concurrent claimants under the fully interleaved
schedule (all three reads race ahead of the upserts); caller 0 wins, callers
1 and 2 observe the sentinel. -/
theorem C3_at_most_one_claim_witness :
    (∃ i, ∃ hi : i < (claimRun "abc" 0 3 [0, 1, 2, 0, 1, 2]).2.length,
        (claimRun "abc" 0 3 [0, 1, 2, 0, 1, 2]).2[i] =
          ClaimPhase.done true none ∧
        ∀ j, ∀ hj : j < (claimRun "abc" 0 3 [0, 1, 2, 0, 1, 2]).2.length,
          j ≠ i →
          ∃ r, (claimRun "abc" 0 3 [0, 1, 2, 0, 1, 2]).2[j] =
            ClaimPhase.done false (some r)) ∧
    (claimRun "abc" 0 3 [0, 1, 2, 0, 1, 2]).1 = some (sentinel "abc" 0) :=
  C3_at_most_one_claim "abc" 0 3 [0, 1, 2, 0, 1, 2] (by decide) (by decide)
